import Mathlib

/-!
Shallow embedding of the renewal-history and entity-resolution subsystem of
the BFP backend (`server.js`): identity resolver (`ensureEntityKey`), the
history log of `PREVIOUS`/`RENEWED` events, the renewal reconciler
(`getLatestRenewedByEntityKey`), and the lifecycle operations
(`POST /records/renew`, `POST /records/close-month`, `GET /records/export`).

JavaScript strings are modelled by `String`; the JS operations the code uses
(`String.prototype.trim`, `toUpperCase`, `localeCompare` ordering, template
interpolation) are given executable models over `String.data`, because the
claims are settled on concrete inputs by kernel evaluation.  JS truthiness of
an optional string is `getD "" ≠ ""`; `Date.now()` and
`new Date().toISOString()` are threaded as explicit parameters `nowMs` /
`nowIso`.
-/

namespace BFP

/-- Model of a JS whitespace character (the characters `trim` removes that
occur in this system's data). -/
def wsChar (c : Char) : Bool := c = ' ' || c = '\t' || c = '\n' || c = '\r'

/-- Model of `String.prototype.trim`: drop whitespace from both ends. -/
def trimStr (s : String) : String :=
  ⟨((s.data.dropWhile wsChar).reverse.dropWhile wsChar).reverse⟩

/-- Lexicographic (code-point) order on character lists: the ordering
`localeCompare` induces on the ASCII timestamp strings this system compares. -/
def lexLeB : List Char → List Char → Bool
  | [], _ => true
  | _ :: _, [] => false
  | a :: as, b :: bs => if a < b then true else if a = b then lexLeB as bs else false

/-- Model of `String.prototype.toUpperCase` on one character (ASCII). -/
def upChar (c : Char) : Char :=
  if 'a' ≤ c && c ≤ 'z' then Char.ofNat (c.toNat - 32) else c

/-- Model of `String.prototype.toUpperCase`. -/
def upStr (s : String) : String := ⟨s.data.map upChar⟩

/-- A JS record `id`: the code stores either a number (`Date.now()`) or a
string (`crypto.randomUUID()`), and interpolates it into `rec:<id>`. -/
inductive JsIdVal where
  | num : Nat → JsIdVal
  | str : String → JsIdVal
deriving DecidableEq

/-- JS string interpolation of an id value. -/
def idToString : JsIdVal → String
  | .num n => toString n
  | .str s => s

/-- JS truthiness of an id value (`0` and `""` are falsy). -/
def truthyIdB : JsIdVal → Bool
  | .num n => n != 0
  | .str s => s != ""

/-- A record: flat mapping of inspection fields.  Every field is optional
(a JS object may lack any of them); `none` models an absent key.  The
camelCase fields are the allow-listed record fields of
`pickAllowedRecordFields`; the ALL_CAPS fields are the legacy aliases that
function reads as fallbacks. -/
structure Record where
  id : Option JsIdVal := none
  entityKey : Option String := none
  createdAt : Option String := none
  renewedAt : Option String := none
  updatedAt : Option String := none
  teamLeader : Option String := none
  appno : Option String := none
  fsicAppNo : Option String := none
  natureOfInspection : Option String := none
  ownerName : Option String := none
  establishmentName : Option String := none
  businessAddress : Option String := none
  contactNumber : Option String := none
  dateInspected : Option String := none
  ioNumber : Option String := none
  ioDate : Option String := none
  nfsiNumber : Option String := none
  nfsiDate : Option String := none
  fsicValidity : Option String := none
  defects : Option String := none
  inspectors : Option String := none
  occupancyType : Option String := none
  buildingDesc : Option String := none
  floorArea : Option String := none
  buildingHeight : Option String := none
  storeyCount : Option String := none
  highRise : Option String := none
  fsmr : Option String := none
  remarks : Option String := none
  orNumber : Option String := none
  orAmount : Option String := none
  orDate : Option String := none
  chiefName : Option String := none
  marshalName : Option String := none
  APPLICATION_NO : Option String := none
  FSIC_APP_NO : Option String := none
  FSIC_NUMBER : Option String := none
  NATURE_OF_INSPECTION : Option String := none
  OWNERS_NAME : Option String := none
  ESTABLISHMENT_NAME : Option String := none
  BUSSINESS_ADDRESS : Option String := none
  ADDRESS : Option String := none
  CONTACT_NUMBER : Option String := none
  DATE_INSPECTED : Option String := none
  IO_NUMBER : Option String := none
  IO_DATE : Option String := none
  NFSI_NUMBER : Option String := none
  NFSI_DATE : Option String := none
  FSIC_VALIDITY : Option String := none
  DEFECTS : Option String := none
  INSPECTORS : Option String := none
  OCCUPANCY_TYPE : Option String := none
  BUILDING_DESC : Option String := none
  BLDG_DESCRIPTION : Option String := none
  FLOOR_AREA : Option String := none
  BUILDING_HEIGHT : Option String := none
  STOREY_COUNT : Option String := none
  HIGH_RISE : Option String := none
  FSMR : Option String := none
  REMARKS : Option String := none
  OR_NUMBER : Option String := none
  OR_AMOUNT : Option String := none
  OR_DATE : Option String := none
  CHIEF : Option String := none
  MARSHAL : Option String := none
deriving DecidableEq

/-- A history event `{entityKey, source, changedAt, action, data}` as written
to `history.json`. -/
structure HistoryEvent where
  entityKey : String
  source : String
  changedAt : String
  action : String
  data : Record
deriving DecidableEq

/-- The persisted server state the claims touch: `records.json` (current
store), `archive.json` (month key to bucket, a missing month being the empty
bucket), `history.json` (the append-only event log). -/
structure ServerState where
  records : List Record
  archive : String → List Record
  history : List HistoryEvent

/-- Body of `POST /records/renew`. -/
structure RenewPayload where
  entityKey : Option String := none
  source : Option String := none
  oldRecord : Option Record := none
  updatedRecord : Option Record := none

/-- Response of `POST /records/renew`. -/
structure RenewResp where
  success : Bool
  message : String := ""
  newRecord : Option Record := none
deriving DecidableEq

/-- Response of `POST /records/close-month`. -/
structure CloseResp where
  success : Bool
  message : String := ""
  month : String := ""
  archivedCount : Nat := 0
deriving DecidableEq

/-- `normalize`: `String(v ?? "").trim()` on an optional string. -/
def normalize (v : Option String) : String := trimStr (v.getD "")

/-- `normalizeEntityKey` applied to a string value. -/
def normalizeEntityKey (s : String) : String := trimStr s

/-- JS `a || b` on optional strings: the first operand if truthy, else the
second. -/
def jsOr (a b : Option String) : Option String := if a.getD "" ≠ "" then a else b

/-- JS `a || b` on plain strings. -/
def strOr (a b : String) : String := if a = "" then b else a

/-- `r.id || Date.now()` interpolated into `rec:<...>`. -/
def recId (o : Option JsIdVal) (nowMs : Nat) : String :=
  match o with
  | some v => if truthyIdB v then idToString v else toString nowMs
  | none => toString nowMs

/-- `ensureEntityKey` (server.js:69-74): return the record unchanged when it
already carries a truthy `entityKey`; otherwise derive the key from the first
truthy of `fsicAppNo`, `FSIC_APP_NO`, `FSIC_NUMBER` (trimmed), falling back
to `rec:<id or Date.now()>`. -/
def ensureEntityKey (nowMs : Nat) (r : Record) : Record :=
  if r.entityKey.getD "" ≠ "" then r
  else
    let fsic := normalize (jsOr r.fsicAppNo (jsOr r.FSIC_APP_NO r.FSIC_NUMBER))
    if fsic ≠ "" then { r with entityKey := some ("fsic:" ++ fsic) }
    else { r with entityKey := some ("rec:" ++ recId r.id nowMs) }

/-- `a ?? b ?? ""`: nullish coalescing of two optional fields into a string. -/
def coalesce2 (a b : Option String) : String := (a <|> b).getD ""

/-- `a ?? b ?? c ?? ""`. -/
def coalesce3 (a b c : Option String) : String := (a <|> b <|> c).getD ""

/-- `pickAllowedRecordFields` (server.js:90-124): builds an object holding
exactly the allow-listed camelCase fields, each taken from the camelCase key
or its legacy ALL_CAPS alias; every other field of the input is dropped. -/
def pickAllowedRecordFields (obj : Record) : Record :=
  { appno := some (coalesce2 obj.appno obj.APPLICATION_NO)
    fsicAppNo := some (coalesce3 obj.fsicAppNo obj.FSIC_APP_NO obj.FSIC_NUMBER)
    natureOfInspection := some (coalesce2 obj.natureOfInspection obj.NATURE_OF_INSPECTION)
    ownerName := some (coalesce2 obj.ownerName obj.OWNERS_NAME)
    establishmentName := some (coalesce2 obj.establishmentName obj.ESTABLISHMENT_NAME)
    businessAddress := some (coalesce3 obj.businessAddress obj.BUSSINESS_ADDRESS obj.ADDRESS)
    contactNumber := some (coalesce2 obj.contactNumber obj.CONTACT_NUMBER)
    dateInspected := some (coalesce2 obj.dateInspected obj.DATE_INSPECTED)
    ioNumber := some (coalesce2 obj.ioNumber obj.IO_NUMBER)
    ioDate := some (coalesce2 obj.ioDate obj.IO_DATE)
    nfsiNumber := some (coalesce2 obj.nfsiNumber obj.NFSI_NUMBER)
    nfsiDate := some (coalesce2 obj.nfsiDate obj.NFSI_DATE)
    fsicValidity := some (coalesce2 obj.fsicValidity obj.FSIC_VALIDITY)
    defects := some (coalesce2 obj.defects obj.DEFECTS)
    inspectors := some (coalesce2 obj.inspectors obj.INSPECTORS)
    occupancyType := some (coalesce2 obj.occupancyType obj.OCCUPANCY_TYPE)
    buildingDesc := some (coalesce3 obj.buildingDesc obj.BUILDING_DESC obj.BLDG_DESCRIPTION)
    floorArea := some (coalesce2 obj.floorArea obj.FLOOR_AREA)
    buildingHeight := some (coalesce2 obj.buildingHeight obj.BUILDING_HEIGHT)
    storeyCount := some (coalesce2 obj.storeyCount obj.STOREY_COUNT)
    highRise := some (coalesce2 obj.highRise obj.HIGH_RISE)
    fsmr := some (coalesce2 obj.fsmr obj.FSMR)
    remarks := some (coalesce2 obj.remarks obj.REMARKS)
    orNumber := some (coalesce2 obj.orNumber obj.OR_NUMBER)
    orAmount := some (coalesce2 obj.orAmount obj.OR_AMOUNT)
    orDate := some (coalesce2 obj.orDate obj.OR_DATE)
    chiefName := some (coalesce2 obj.chiefName obj.CHIEF)
    marshalName := some (coalesce2 obj.marshalName obj.MARSHAL) }

/-- `buildRenewedRecord` (server.js:146-160): allow-listed copy of
`updatedRecord`, fresh time-based `id`, `renewedAt`/`createdAt` both the same
instant, `teamLeader` preserved or empty, then key resolution. -/
def buildRenewedRecord (entityKey : String) (updatedRecord : Record)
    (nowMs : Nat) (nowIso : String) : Record :=
  ensureEntityKey nowMs
    { pickAllowedRecordFields updatedRecord with
      id := some (.num nowMs)
      entityKey := some entityKey
      teamLeader := some (updatedRecord.teamLeader.getD "")
      renewedAt := some nowIso
      createdAt := some nowIso }

/-- The sort relation of `getLatestRenewedByEntityKey`:
`String(a.changedAt || "").localeCompare(String(b.changedAt || "")) ≤ 0`. -/
def chLE (a b : HistoryEvent) : Prop := lexLeB a.changedAt.data b.changedAt.data = true

instance : DecidableRel chLE :=
  fun a b => inferInstanceAs (Decidable (lexLeB a.changedAt.data b.changedAt.data = true))

/-- Filter of `getLatestRenewedByEntityKey`: events whose normalized entity
key matches and whose upper-cased action is `RENEWED`. -/
def matchesRenewed (ek : String) (h : HistoryEvent) : Bool :=
  normalizeEntityKey h.entityKey == ek && upStr h.action == "RENEWED"

/-- `getLatestRenewedByEntityKey` (server.js:162-178): normalize the key
(empty gives `null`), filter the log for matching `RENEWED` events,
stable-sort ascending by `changedAt`, return the key-resolved `data` of the
last element (`null` when there is none). -/
def getLatestRenewedByEntityKey (nowMs : Nat) (history : List HistoryEvent)
    (entityKey : String) : Option Record :=
  let ek := normalizeEntityKey entityKey
  if ek = "" then none
  else
    let renewed := List.insertionSort chLE (history.filter (matchesRenewed ek))
    match renewed.getLast? with
    | none => none
    | some last => some (ensureEntityKey nowMs last.data)

/-- Effective entity key of a renew request (server.js:688-694): resolve keys
on both records, then take the first non-empty of the normalized explicit
`entityKey`, `oldRecord.entityKey`, `updatedRecord.entityKey`. -/
def effectiveKey (nowMs : Nat) (p : RenewPayload) : String :=
  let oldR := p.oldRecord.map (ensureEntityKey nowMs)
  let updR := p.updatedRecord.map (ensureEntityKey nowMs)
  strOr (normalize p.entityKey)
    (strOr (normalize (oldR.bind Record.entityKey))
      (normalize (updR.bind Record.entityKey)))

/-- `POST /records/renew` (server.js:684-715): validate, then append one
`PREVIOUS` event carrying the key-resolved `oldRecord` and one `RENEWED`
event carrying the newly built record, both stamped `nowIso`. -/
def renew (nowMs : Nat) (nowIso : String) (st : ServerState) (p : RenewPayload) :
    ServerState × RenewResp :=
  let oldR := p.oldRecord.map (ensureEntityKey nowMs)
  let updR := p.updatedRecord.map (ensureEntityKey nowMs)
  let ek := effectiveKey nowMs p
  match oldR, updR with
  | some o, some u =>
    if ek = "" then
      (st, { success := false, message := "Missing payload (entityKey/oldRecord/updatedRecord)" })
    else
      let newRecord := buildRenewedRecord ek u nowMs nowIso
      ({ st with history := st.history ++
          [ { entityKey := ek, source := strOr (p.source.getD "") "Unknown",
              changedAt := nowIso, action := "PREVIOUS", data := o },
            { entityKey := ek, source := "Renewed",
              changedAt := nowIso, action := "RENEWED", data := newRecord } ] },
       { success := true, newRecord := some newRecord })
  | _, _ =>
    (st, { success := false, message := "Missing payload (entityKey/oldRecord/updatedRecord)" })

/-- `POST /records/close-month` (server.js:565-584): key-resolve the current
records; if none, soft failure `{success:false, message:"No records"}` with no
state change; otherwise append them to the wall-clock month's archive bucket
and empty the current store.  The wall-clock month key is a parameter. -/
def closeMonth (nowMs : Nat) (monthKey : String) (st : ServerState) :
    ServerState × CloseResp :=
  let records := st.records.map (ensureEntityKey nowMs)
  if records = [] then (st, { success := false, message := "No records" })
  else
    ({ st with
        records := []
        archive := fun m => if m = monthKey then st.archive monthKey ++ records else st.archive m },
     { success := true, month := monthKey, archivedCount := records.length })

/-- `GET /records/export` (server.js:718-737): `none` models the
missing-month error; otherwise each key-resolved archived record of the month
is replaced by its latest renewal when one exists (`latest || r`). -/
def exportMonth (nowMs : Nat) (st : ServerState) (month : String) :
    Option (List Record) :=
  let m := normalizeEntityKey month
  if m = "" then none
  else
    let list := (st.archive m).map (ensureEntityKey nowMs)
    some (list.map (fun r =>
      let ek := normalize r.entityKey
      let latest := if ek ≠ "" then getLatestRenewedByEntityKey nowMs st.history ek else none
      latest.getD r))

/-- Modelled from the spec: `removeByRecordId(id)` of §4.2, the history
delete path, which exists in no source file under `src/` — "removes all
`RENEWED` events whose `data.id` equals the given id; all `PREVIOUS` events
and non-matching `RENEWED` events are retained". -/
def removeByRecordId (rid : JsIdVal) (hist : List HistoryEvent) : List HistoryEvent :=
  hist.filter (fun h => !(h.action == "RENEWED" && h.data.id == some rid))

/-- Spec-side accumulator: keep the event with the lexicographically greater
`changedAt`, the later (current) one winning ties. -/
def laterMax (acc : Option HistoryEvent) (h : HistoryEvent) : Option HistoryEvent :=
  match acc with
  | none => some h
  | some a => if chLE a h then some h else some a

/-- Spec-side definition of the reconciler's selection, following the spec's
words: among the matching `RENEWED` events, the one with the lexicographically
greatest `changedAt`, ties broken in favour of the later event in log-append
order. -/
def specLatestRenewed (hist : List HistoryEvent) (ek : String) : Option HistoryEvent :=
  (hist.filter (matchesRenewed ek)).foldl laterMax none

/-- The log invariant of claim C3: every `RENEWED` event's `data.entityKey`
equals the event's own `entityKey`. -/
def renewedKeyInvariant (hist : List HistoryEvent) : Prop :=
  ∀ h ∈ hist, h.action = "RENEWED" → h.data.entityKey = some h.entityKey

/-- Keep the maximum seen so far, the earlier element winning ties: the shape
`orderedInsert` induces on the last element of a sorted list. -/
def insMax (a : HistoryEvent) (o : Option HistoryEvent) : Option HistoryEvent :=
  match o with
  | none => some a
  | some m => if chLE a m then some m else some a

/-- Record with no `entityKey`, used to test the reconciler on raw data. -/
def cxNoKeyRecord : Record := { id := some (.num 7) }

/-- One-event log whose only `RENEWED` event carries data without an
`entityKey`. -/
def cxHist1 : List HistoryEvent :=
  [{ entityKey := "k", source := "seed", changedAt := "2024-01-01T00:00:00Z",
     action := "RENEWED", data := cxNoKeyRecord }]

/-- Concrete pre-renewal record of the spec's renewal round-trip example. -/
def wOld : Record := { id := some (.num 1), fsicAppNo := some "F-1", ownerName := some "A" }

/-- Concrete updated record of the spec's renewal round-trip example. -/
def wUpd : Record := { fsicAppNo := some "F-1", ownerName := some "B" }

/-- Concrete renew payload built from `wOld` and `wUpd`. -/
def wPayload : RenewPayload := { oldRecord := some wOld, updatedRecord := some wUpd }

/-- Empty server state. -/
def wState : ServerState := ⟨[], fun _ => [], []⟩

/-- Current store holding three records, as in the close-month example. -/
def cState : ServerState :=
  ⟨[{ id := some (.num 1) }, { id := some (.num 2) }, { id := some (.num 3) }],
   fun _ => [], []⟩

/-- An archived record that never got renewed and carries no entity key. -/
def cxArchRecord : Record := { id := some (.num 1), ownerName := some "A" }

/-- State archiving `cxArchRecord` under month 2024-01, with an empty log. -/
def cxExpState : ServerState :=
  ⟨[], fun m => if m = "2024-01" then [cxArchRecord] else [], []⟩

/-- A log holding one renewal for entity `fsic:F-1`. -/
def wExpHist : List HistoryEvent :=
  [{ entityKey := "fsic:F-1", source := "Renewed", changedAt := "2024-02-01T00:00:00Z",
     action := "RENEWED",
     data := { id := some (.num 9), fsicAppNo := some "F-1", ownerName := some "B",
               entityKey := some "fsic:F-1" } }]

/-- State archiving one `fsic:F-1` record under month 2024-01 whose entity has
a later renewal in the log. -/
def wExpState : ServerState :=
  ⟨[], fun m =>
      if m = "2024-01" then
        [{ id := some (.num 1), fsicAppNo := some "F-1", ownerName := some "A" }]
      else [],
   wExpHist⟩

/-- A log with one `PREVIOUS` event and two `RENEWED` events of distinct ids. -/
def wRemHist : List HistoryEvent :=
  [{ entityKey := "k", source := "s", changedAt := "t1", action := "PREVIOUS",
     data := { id := some (.num 5) } },
   { entityKey := "k", source := "s", changedAt := "t1", action := "RENEWED",
     data := { id := some (.num 5) } },
   { entityKey := "k", source := "s", changedAt := "t2", action := "RENEWED",
     data := { id := some (.num 6) } }]

lemma dataAppend (a b : String) : (a ++ b).data = a.data ++ b.data := by
  cases a
  cases b
  rfl

lemma append_ne_empty (a b : String) (h : a.data ≠ []) : a ++ b ≠ "" := by
  intro e
  have hd := congrArg String.data e
  rw [dataAppend] at hd
  exact h (List.append_eq_nil.mp hd).1

lemma ensureEntityKey_key_ne (nowMs : Nat) (r : Record) :
    (ensureEntityKey nowMs r).entityKey.getD "" ≠ "" := by
  simp only [ensureEntityKey]
  split_ifs with h1 h2
  · exact h1
  · exact append_ne_empty _ _ (by decide)
  · exact append_ne_empty _ _ (by decide)

lemma ensureEntityKey_id (nowMs : Nat) (r : Record) :
    (ensureEntityKey nowMs r).id = r.id := by
  simp only [ensureEntityKey]
  split_ifs <;> rfl

lemma lexLeB_total : ∀ (a b : List Char), lexLeB a b = true ∨ lexLeB b a = true
  | [], _ => Or.inl rfl
  | _ :: _, [] => Or.inr rfl
  | a :: as, b :: bs => by
    rcases lt_trichotomy a b with h | h | h
    · exact Or.inl (by simp [lexLeB, h])
    · subst h
      rcases lexLeB_total as bs with ih | ih
      · exact Or.inl (by simp [lexLeB, ih])
      · exact Or.inr (by simp [lexLeB, ih])
    · exact Or.inr (by simp [lexLeB, h])

lemma lexLeB_trans : ∀ (a b c : List Char),
    lexLeB a b = true → lexLeB b c = true → lexLeB a c = true
  | [], _, _, _, _ => rfl
  | _ :: _, [], _, h₁, _ => by simp [lexLeB] at h₁
  | _ :: _, _ :: _, [], _, h₂ => by simp [lexLeB] at h₂
  | a :: as, b :: bs, c :: cs, h₁, h₂ => by
    by_cases hab : a < b
    · by_cases hbc : b < c
      · simp [lexLeB, lt_trans hab hbc]
      · by_cases hbc2 : b = c
        · subst hbc2
          simp [lexLeB, hab]
        · simp [lexLeB, hbc, hbc2] at h₂
    · by_cases hab2 : a = b
      · subst hab2
        simp [lexLeB] at h₁
        by_cases hac : a < c
        · simp [lexLeB, hac]
        · by_cases hac2 : a = c
          · subst hac2
            simp [lexLeB] at h₂ ⊢
            exact lexLeB_trans as bs cs h₁ h₂
          · simp [lexLeB, hac, hac2] at h₂
      · simp [lexLeB, hab, hab2] at h₁

lemma chLE_total (a b : HistoryEvent) : chLE a b ∨ chLE b a := lexLeB_total _ _

lemma chLE_trans {a b c : HistoryEvent} : chLE a b → chLE b c → chLE a c :=
  lexLeB_trans _ _ _

instance : IsTotal HistoryEvent chLE := ⟨chLE_total⟩

instance : IsTrans HistoryEvent chLE := ⟨fun _ _ _ => chLE_trans⟩

lemma orderedInsert_ne_nil (a : HistoryEvent) (l : List HistoryEvent) :
    List.orderedInsert chLE a l ≠ [] := by
  cases l with
  | nil => simp [List.orderedInsert]
  | cons b t =>
    simp only [List.orderedInsert]
    split <;> simp

lemma getLast?_cons_ne {α : Type} (b : α) (l : List α) (h : l ≠ []) :
    (b :: l).getLast? = l.getLast? := by
  cases l with
  | nil => exact absurd rfl h
  | cons c t => exact List.getLast?_cons_cons

lemma getLast?_orderedInsert (a : HistoryEvent) (l : List HistoryEvent)
    (hs : List.Sorted chLE l) :
    (List.orderedInsert chLE a l).getLast? = insMax a l.getLast? := by
  induction l with
  | nil => rfl
  | cons b t ih =>
    simp only [List.orderedInsert]
    split
    · next hab =>
      rw [List.getLast?_cons_cons]
      cases hm : (b :: t).getLast? with
      | none => simp at hm
      | some m =>
        have hmem : m ∈ b :: t := List.mem_of_mem_getLast? (by rw [hm]; rfl)
        have ham : chLE a m := by
          rcases List.mem_cons.mp hmem with he | ht
          · subst he
            exact hab
          · exact chLE_trans hab (List.rel_of_sorted_cons hs m ht)
        simp [insMax, ham]
    · next hab =>
      rw [getLast?_cons_ne b _ (orderedInsert_ne_nil a t), ih hs.of_cons]
      cases t with
      | nil => simp [insMax, hab]
      | cons c t' => rw [List.getLast?_cons_cons]

lemma foldl_laterMax_some : ∀ (t : List HistoryEvent) (a : HistoryEvent),
    t.foldl laterMax (some a) = insMax a (t.foldl laterMax none)
  | [], _ => rfl
  | h :: t', a => by
    show List.foldl laterMax (laterMax (some a) h) t'
        = insMax a (List.foldl laterMax (laterMax none h) t')
    simp only [laterMax]
    by_cases hah : chLE a h
    · rw [if_pos hah, foldl_laterMax_some t' h]
      cases hM : t'.foldl laterMax none with
      | none => simp [insMax, hah]
      | some m =>
        by_cases hhm : chLE h m
        · simp [insMax, hhm, chLE_trans hah hhm]
        · simp [insMax, hhm, hah]
    · have hha : chLE h a := (chLE_total h a).resolve_right hah
      rw [if_neg hah, foldl_laterMax_some t' a, foldl_laterMax_some t' h]
      cases hM : t'.foldl laterMax none with
      | none => simp [insMax, hah]
      | some m =>
        by_cases hhm : chLE h m
        · simp [insMax, hhm]
        · have ham : ¬ chLE a m := fun hc => hhm (chLE_trans hha hc)
          simp [insMax, hhm, ham, hah]

lemma insertionSort_getLast? (l : List HistoryEvent) :
    (List.insertionSort chLE l).getLast? = l.foldl laterMax none := by
  induction l with
  | nil => rfl
  | cons a t ih =>
    show (List.orderedInsert chLE a (List.insertionSort chLE t)).getLast? = _
    rw [getLast?_orderedInsert a _ (List.sorted_insertionSort chLE t), ih]
    show insMax a (t.foldl laterMax none) = t.foldl laterMax (some a)
    exact (foldl_laterMax_some t a).symm

/-- C1 (amended): for every history log and entity key,
`getLatestRenewedByEntityKey` returns the key-resolved (`resolveEntityKey`
applied) data of the `RENEWED` event whose `changedAt` string is
lexicographically greatest among all `RENEWED` events with that normalized
entity key, ties on equal `changedAt` broken in favour of the event appearing
later in log-append order; and it returns `null` whenever the key normalizes
to the empty string or no `RENEWED` event matches. -/
theorem getLatestRenewed_characterization (nowMs : Nat) (hist : List HistoryEvent)
    (k : String) :
    getLatestRenewedByEntityKey nowMs hist k =
      if normalizeEntityKey k = "" then none
      else (specLatestRenewed hist (normalizeEntityKey k)).map
        (fun h => ensureEntityKey nowMs h.data) := by
  by_cases hk : normalizeEntityKey k = ""
  · simp [getLatestRenewedByEntityKey, hk]
  · simp only [getLatestRenewedByEntityKey, specLatestRenewed, if_neg hk]
    rw [insertionSort_getLast?]
    cases hv : (hist.filter (matchesRenewed (normalizeEntityKey k))).foldl laterMax none with
    | none => rfl
    | some h => rfl

/-- C1 (counterexample to the claim as stated): on a log whose greatest
`RENEWED` event carries data without an `entityKey`, the reconciler does not
return that data itself — it returns the data with the derived key added. -/
theorem getLatestRenewed_data_counterexample :
    getLatestRenewedByEntityKey 0 cxHist1 "k" ≠ some cxNoKeyRecord ∧
    getLatestRenewedByEntityKey 0 cxHist1 "k" =
      some { cxNoKeyRecord with entityKey := some "rec:7" } := by
  constructor
  · decide
  · decide

/-- C5: `resolveEntityKey` is idempotent — applying it a second time (with any
wall-clock instant) returns the once-resolved record unchanged. -/
theorem resolveEntityKey_idempotent (n₁ n₂ : Nat) (r : Record) :
    ensureEntityKey n₂ (ensureEntityKey n₁ r) = ensureEntityKey n₁ r := by
  have h := ensureEntityKey_key_ne n₁ r
  generalize ensureEntityKey n₁ r = s at h ⊢
  simp only [ensureEntityKey]
  rw [if_pos h]

/-- C4 (counterexample to the claim as stated): a record with empty
`fsicAppNo` but a legacy `FSIC_APP_NO` does not get `rec:<id>` — the code
derives `fsic:X` from the legacy field. -/
theorem ensureEntityKey_derivation_counterexample :
    (ensureEntityKey 0 { id := some (.num 1), FSIC_APP_NO := some "X" } : Record).entityKey
        = some "fsic:X"
    ∧ (ensureEntityKey 0 { id := some (.num 1), FSIC_APP_NO := some "X" } : Record).entityKey
        ≠ some "rec:1" := by
  constructor
  · decide
  · decide

/-- C4 (amended): for a record without a truthy `entityKey`, if `fsicAppNo`
trims non-empty the key is `fsic:<trimmed fsicAppNo>`; if the whole
`fsicAppNo || FSIC_APP_NO || FSIC_NUMBER` chain trims empty the key is
`rec:<id, or the current timestamp if id is falsy>`; a record already
carrying a non-empty `entityKey` is returned unchanged. -/
theorem ensureEntityKey_derivation (nowMs : Nat) (r : Record) :
    (r.entityKey.getD "" ≠ "" → ensureEntityKey nowMs r = r)
    ∧ (r.entityKey.getD "" = "" → normalize r.fsicAppNo ≠ "" →
        (ensureEntityKey nowMs r).entityKey = some ("fsic:" ++ normalize r.fsicAppNo))
    ∧ (r.entityKey.getD "" = "" →
        normalize (jsOr r.fsicAppNo (jsOr r.FSIC_APP_NO r.FSIC_NUMBER)) = "" →
        (ensureEntityKey nowMs r).entityKey = some ("rec:" ++ recId r.id nowMs)) := by
  refine ⟨?_, ?_, ?_⟩
  · intro h
    simp only [ensureEntityKey]
    rw [if_pos h]
  · intro hk hf
    have hgd : r.fsicAppNo.getD "" ≠ "" := by
      intro e
      apply hf
      unfold normalize
      rw [e]
      rfl
    have hjs : jsOr r.fsicAppNo (jsOr r.FSIC_APP_NO r.FSIC_NUMBER) = r.fsicAppNo := by
      unfold jsOr
      rw [if_pos hgd]
    simp only [ensureEntityKey, hjs]
    split_ifs with h1
    · exact absurd hk h1
    · rfl
  · intro hk hz
    simp only [ensureEntityKey]
    split_ifs with h1 h2
    · exact absurd hk h1
    · exact absurd hz h2
    · rfl

/-- C4 (witness): the two derivation examples of the claim. -/
theorem ensureEntityKey_derivation_witness :
    (ensureEntityKey 0 { fsicAppNo := some " F-100 " } : Record).entityKey = some "fsic:F-100"
    ∧ (ensureEntityKey 0 { id := some (.num 42) } : Record).entityKey = some "rec:42" := by
  constructor
  · have h := (ensureEntityKey_derivation 0 { fsicAppNo := some " F-100 " }).2.1
      (by decide) (by decide)
    rw [h]
    decide
  · have h := (ensureEntityKey_derivation 0 { id := some (.num 42) }).2.2
      (by decide) (by decide)
    rw [h]
    decide

/-- C10 (counterexample to the claim as stated): with absent `fsicAppNo`, a
whitespace-only `FSIC_APP_NO` is truthy, so it is the value the chain picks;
it trims to nothing, so the key falls through to `rec:1` — not a `fsic:` key
from either legacy field as the claim demands. -/
theorem legacy_fsic_fallback_counterexample :
    let r : Record := { id := some (.num 1), FSIC_APP_NO := some " ", FSIC_NUMBER := some "Y" }
    (ensureEntityKey 0 r).entityKey = some "rec:1"
    ∧ (ensureEntityKey 0 r).entityKey ≠ some ("fsic:" ++ normalize r.FSIC_APP_NO)
    ∧ (ensureEntityKey 0 r).entityKey ≠ some ("fsic:" ++ normalize r.FSIC_NUMBER) := by
  refine ⟨by decide, by decide, by decide⟩

/-- C10 (amended): with no truthy `entityKey` and a falsy (empty or absent)
`fsicAppNo`, a `FSIC_APP_NO` that trims non-empty gives `fsic:<trimmed
FSIC_APP_NO>`; when `FSIC_APP_NO` is also falsy, a `FSIC_NUMBER` that trims
non-empty gives `fsic:<trimmed FSIC_NUMBER>`.  (A truthy but whitespace-only
legacy value instead blocks the chain and falls through to `rec:<id>`.) -/
theorem legacy_fsic_fallback (nowMs : Nat) (r : Record)
    (hkey : r.entityKey.getD "" = "") (hfa : r.fsicAppNo.getD "" = "") :
    (normalize r.FSIC_APP_NO ≠ "" →
      (ensureEntityKey nowMs r).entityKey = some ("fsic:" ++ normalize r.FSIC_APP_NO))
    ∧ (r.FSIC_APP_NO.getD "" = "" → normalize r.FSIC_NUMBER ≠ "" →
      (ensureEntityKey nowMs r).entityKey = some ("fsic:" ++ normalize r.FSIC_NUMBER)) := by
  have hjs0 : jsOr r.fsicAppNo (jsOr r.FSIC_APP_NO r.FSIC_NUMBER)
      = jsOr r.FSIC_APP_NO r.FSIC_NUMBER := by
    unfold jsOr
    rw [if_neg (by simp [hfa])]
  constructor
  · intro hf
    have hgd : r.FSIC_APP_NO.getD "" ≠ "" := by
      intro e
      apply hf
      unfold normalize
      rw [e]
      rfl
    have hjs : jsOr r.FSIC_APP_NO r.FSIC_NUMBER = r.FSIC_APP_NO := by
      unfold jsOr
      rw [if_pos hgd]
    simp only [ensureEntityKey]
    simp only [hjs0]
    simp only [hjs]
    split_ifs with h1
    · exact absurd hkey h1
    · rfl
  · intro hfa2 hf
    have hjs : jsOr r.FSIC_APP_NO r.FSIC_NUMBER = r.FSIC_NUMBER := by
      unfold jsOr
      rw [if_neg (by simp [hfa2])]
    simp only [ensureEntityKey]
    simp only [hjs0]
    simp only [hjs]
    split_ifs with h1
    · exact absurd hkey h1
    · rfl

/-- C10 (witness): legacy `FSIC_APP_NO` and `FSIC_NUMBER` fallbacks fire. -/
theorem legacy_fsic_fallback_witness :
    (ensureEntityKey 0 { id := some (.num 3), FSIC_APP_NO := some " L-7 " } : Record).entityKey
        = some "fsic:L-7"
    ∧ (ensureEntityKey 0 { id := some (.num 4), FSIC_NUMBER := some "N-9" } : Record).entityKey
        = some "fsic:N-9" := by
  constructor
  · have h := (legacy_fsic_fallback 0 { id := some (.num 3), FSIC_APP_NO := some " L-7 " }
      (by decide) (by decide)).1 (by decide)
    rw [h]
    decide
  · have h := (legacy_fsic_fallback 0 { id := some (.num 4), FSIC_NUMBER := some "N-9" }
      (by decide) (by decide)).2 (by decide) (by decide)
    rw [h]
    decide

/-- C2: for every renew request whose validation succeeds, the operation
appends exactly two events to the history log, in order: first a `PREVIOUS`
event carrying the key-resolved `oldRecord`, then a `RENEWED` event carrying
the newly built record; both carry the same `changedAt` timestamp, no other
history entry is touched, and the other stores are unchanged. -/
theorem renew_appends_exactly_two_events (nowMs : Nat) (nowIso : String)
    (st : ServerState) (p : RenewPayload) (o u : Record)
    (ho : p.oldRecord = some o) (hu : p.updatedRecord = some u)
    (hek : effectiveKey nowMs p ≠ "") :
    (renew nowMs nowIso st p).1.history = st.history ++
      [ { entityKey := effectiveKey nowMs p,
          source := strOr (p.source.getD "") "Unknown",
          changedAt := nowIso, action := "PREVIOUS",
          data := ensureEntityKey nowMs o },
        { entityKey := effectiveKey nowMs p, source := "Renewed",
          changedAt := nowIso, action := "RENEWED",
          data := buildRenewedRecord (effectiveKey nowMs p)
            (ensureEntityKey nowMs u) nowMs nowIso } ]
    ∧ (renew nowMs nowIso st p).1.records = st.records
    ∧ (renew nowMs nowIso st p).1.archive = st.archive
    ∧ (renew nowMs nowIso st p).2.success = true := by
  simp only [renew, ho, hu, Option.map_some']
  rw [if_neg hek]
  exact ⟨rfl, rfl, rfl, rfl⟩

/-- C2 (witness): the spec's renewal round-trip example payload. -/
theorem renew_appends_exactly_two_events_witness :
    (renew 100 "2024-03-01T00:00:00Z" wState wPayload).1.history = wState.history ++
      [ { entityKey := effectiveKey 100 wPayload,
          source := strOr (wPayload.source.getD "") "Unknown",
          changedAt := "2024-03-01T00:00:00Z", action := "PREVIOUS",
          data := ensureEntityKey 100 wOld },
        { entityKey := effectiveKey 100 wPayload, source := "Renewed",
          changedAt := "2024-03-01T00:00:00Z", action := "RENEWED",
          data := buildRenewedRecord (effectiveKey 100 wPayload)
            (ensureEntityKey 100 wUpd) 100 "2024-03-01T00:00:00Z" } ]
    ∧ (renew 100 "2024-03-01T00:00:00Z" wState wPayload).1.records = wState.records
    ∧ (renew 100 "2024-03-01T00:00:00Z" wState wPayload).1.archive = wState.archive
    ∧ (renew 100 "2024-03-01T00:00:00Z" wState wPayload).2.success = true :=
  renew_appends_exactly_two_events 100 "2024-03-01T00:00:00Z" wState wPayload wOld wUpd
    rfl rfl (by decide)

/-- C8: a renew request missing the effective entity key, the `oldRecord`, or
the `updatedRecord` fails with the bad-request validation error and mutates
nothing: the returned state is exactly the input state. -/
theorem renew_validation_failure_no_mutation (nowMs : Nat) (nowIso : String)
    (st : ServerState) (p : RenewPayload)
    (h : effectiveKey nowMs p = "" ∨ p.oldRecord = none ∨ p.updatedRecord = none) :
    renew nowMs nowIso st p =
      (st, { success := false,
             message := "Missing payload (entityKey/oldRecord/updatedRecord)" }) := by
  rcases h with h | h | h
  · cases ho : p.oldRecord <;> cases hu : p.updatedRecord <;>
      simp [renew, ho, hu, h]
  · cases hu : p.updatedRecord <;> simp [renew, h, hu]
  · cases ho : p.oldRecord <;> simp [renew, h, ho]

/-- C8 (witness): the empty renew payload fails soft and leaves the state. -/
theorem renew_validation_failure_no_mutation_witness :
    renew 0 "t" wState {} =
      (wState, { success := false,
                 message := "Missing payload (entityKey/oldRecord/updatedRecord)" }) :=
  renew_validation_failure_no_mutation 0 "t" wState {} (Or.inr (Or.inl rfl))

lemma buildRenewedRecord_entityKey (ek : String) (u : Record) (nowMs : Nat)
    (nowIso : String) (h : ek ≠ "") :
    (buildRenewedRecord ek u nowMs nowIso).entityKey = some ek := by
  unfold buildRenewedRecord
  simp only [ensureEntityKey]
  split_ifs with hc
  · rfl
  · exact absurd h (by simpa using hc)
  · exact absurd h (by simpa using hc)

lemma renew_state_shape (nowMs : Nat) (nowIso : String) (st : ServerState)
    (p : RenewPayload) :
    (renew nowMs nowIso st p).1 = st ∨
    (effectiveKey nowMs p ≠ "" ∧ ∃ o u, p.oldRecord = some o ∧ p.updatedRecord = some u ∧
      (renew nowMs nowIso st p).1.history = st.history ++
        [ { entityKey := effectiveKey nowMs p,
            source := strOr (p.source.getD "") "Unknown",
            changedAt := nowIso, action := "PREVIOUS", data := ensureEntityKey nowMs o },
          { entityKey := effectiveKey nowMs p, source := "Renewed", changedAt := nowIso,
            action := "RENEWED",
            data := buildRenewedRecord (effectiveKey nowMs p)
              (ensureEntityKey nowMs u) nowMs nowIso } ]) := by
  cases ho : p.oldRecord with
  | none => exact Or.inl (by cases hu : p.updatedRecord <;> simp [renew, ho, hu])
  | some o =>
    cases hu : p.updatedRecord with
    | none => exact Or.inl (by simp [renew, ho, hu])
    | some u =>
      by_cases hek : effectiveKey nowMs p = ""
      · exact Or.inl (by simp [renew, ho, hu, hek])
      · refine Or.inr ⟨hek, o, u, rfl, rfl, ?_⟩
        simp only [renew, ho, hu, Option.map_some']
        rw [if_neg hek]

lemma closeMonth_history (nowMs : Nat) (monthKey : String) (st : ServerState) :
    (closeMonth nowMs monthKey st).1.history = st.history := by
  simp only [closeMonth]
  split_ifs <;> rfl

/-- C3: every `RENEWED` event the renew operation appends has
`data.entityKey` equal to the event's own `entityKey`, and this equality is
an invariant of the log preserved by renew, close-month, and the history
delete path. -/
theorem renewed_event_key_invariant :
    (∀ (nowMs : Nat) (nowIso : String) (st : ServerState) (p : RenewPayload)
        (h : HistoryEvent), h ∈ (renew nowMs nowIso st p).1.history →
        h ∉ st.history → h.action = "RENEWED" → h.data.entityKey = some h.entityKey)
    ∧ (∀ (nowMs : Nat) (nowIso : String) (st : ServerState) (p : RenewPayload),
        renewedKeyInvariant st.history →
        renewedKeyInvariant (renew nowMs nowIso st p).1.history)
    ∧ (∀ (nowMs : Nat) (monthKey : String) (st : ServerState),
        renewedKeyInvariant st.history →
        renewedKeyInvariant (closeMonth nowMs monthKey st).1.history)
    ∧ (∀ (rid : JsIdVal) (hist : List HistoryEvent),
        renewedKeyInvariant hist → renewedKeyInvariant (removeByRecordId rid hist)) := by
  have happended : ∀ (nowMs : Nat) (nowIso : String) (st : ServerState) (p : RenewPayload)
      (h : HistoryEvent), h ∈ (renew nowMs nowIso st p).1.history →
      h ∉ st.history → h.action = "RENEWED" → h.data.entityKey = some h.entityKey := by
    intro nowMs nowIso st p h hmem hnot hact
    rcases renew_state_shape nowMs nowIso st p with hsame | ⟨hek, o, u, ho, hu, hh⟩
    · rw [hsame] at hmem
      exact absurd hmem hnot
    · rw [hh] at hmem
      rcases List.mem_append.mp hmem with hold | hnew
      · exact absurd hold hnot
      · rcases List.mem_cons.mp hnew with he | hnew2
        · subst he
          have hne : ("PREVIOUS" : String) ≠ "RENEWED" := by decide
          exact absurd hact hne
        · rcases List.mem_cons.mp hnew2 with he | hnil
          · subst he
            exact buildRenewedRecord_entityKey _ _ _ _ hek
          · exact absurd hnil (List.not_mem_nil h)
  refine ⟨happended, ?_, ?_, ?_⟩
  · intro nowMs nowIso st p hinv h hmem hact
    by_cases hold : h ∈ st.history
    · exact hinv h hold hact
    · exact happended nowMs nowIso st p h hmem hold hact
  · intro nowMs monthKey st hinv h hmem hact
    rw [closeMonth_history] at hmem
    exact hinv h hmem hact
  · intro rid hist hinv h hmem hact
    exact hinv h (List.mem_filter.mp hmem).1 hact

/-- C3 (witness): the invariant holds on the log produced by a concrete
renew from the empty log. -/
theorem renewed_event_key_invariant_witness :
    renewedKeyInvariant (renew 100 "2024-03-01T00:00:00Z" wState wPayload).1.history :=
  renewed_event_key_invariant.2.1 100 "2024-03-01T00:00:00Z" wState wPayload
    (fun h hm _ => absurd hm (List.not_mem_nil h))

/-- C6: close-month moves rather than copies — with a non-empty current
store the current store becomes empty and the month's bucket gains exactly
the current records by id after the ones it already held, other buckets and
the history are untouched, and the response reports the archived count; an
immediately repeated close-month, and a close-month on an empty store,
return the soft failure with no state change. -/
theorem closeMonth_moves_records (nowMs : Nat) (monthKey : String) (st : ServerState) :
    (st.records ≠ [] →
      (closeMonth nowMs monthKey st).1.records = []
      ∧ ((closeMonth nowMs monthKey st).1.archive monthKey).map Record.id
          = (st.archive monthKey).map Record.id ++ st.records.map Record.id
      ∧ (∀ m, m ≠ monthKey → (closeMonth nowMs monthKey st).1.archive m = st.archive m)
      ∧ (closeMonth nowMs monthKey st).1.history = st.history
      ∧ (closeMonth nowMs monthKey st).2
          = { success := true, month := monthKey, archivedCount := st.records.length }
      ∧ (∀ (nowMs2 : Nat) (monthKey2 : String),
          closeMonth nowMs2 monthKey2 (closeMonth nowMs monthKey st).1
            = ((closeMonth nowMs monthKey st).1,
               { success := false, message := "No records" })))
    ∧ (st.records = [] →
        closeMonth nowMs monthKey st = (st, { success := false, message := "No records" })) := by
  constructor
  · intro hne
    have hmapne : st.records.map (ensureEntityKey nowMs) ≠ [] := by
      simpa using hne
    refine ⟨?_, ?_, ?_, ?_, ?_, ?_⟩
    · simp [closeMonth, hmapne]
    · simp only [closeMonth, if_neg hmapne]
      simp [List.map_map, Function.comp, ensureEntityKey_id]
    · intro m hm
      simp [closeMonth, hmapne, hm]
    · simp [closeMonth, hmapne]
    · simp [closeMonth, hmapne]
    · intro nowMs2 monthKey2
      have hrec : (closeMonth nowMs monthKey st).1.records = [] := by
        simp [closeMonth, hmapne]
      generalize (closeMonth nowMs monthKey st).1 = st2 at hrec ⊢
      simp [closeMonth, hrec]
  · intro he
    simp [closeMonth, he]

/-- C6 (witness): closing a month with three current records empties the
store, archives the three ids, and a second close is the soft no-op. -/
theorem closeMonth_moves_records_witness :
    (closeMonth 0 "2024-01" cState).1.records = []
    ∧ ((closeMonth 0 "2024-01" cState).1.archive "2024-01").map Record.id
        = (cState.archive "2024-01").map Record.id ++ cState.records.map Record.id
    ∧ closeMonth 5 "2024-02" (closeMonth 0 "2024-01" cState).1
        = ((closeMonth 0 "2024-01" cState).1,
           { success := false, message := "No records" }) := by
  have h := (closeMonth_moves_records 0 "2024-01" cState).1 (by decide)
  exact ⟨h.1, h.2.1, h.2.2.2.2.2 5 "2024-02"⟩

lemma getLatest_empty_key (nowMs : Nat) (hist : List HistoryEvent) :
    getLatestRenewedByEntityKey nowMs hist "" = none := by
  unfold getLatestRenewedByEntityKey
  rw [if_pos (by decide)]

/-- C7 (counterexample to the claim as stated): an archived record with no
`entityKey` and no renewal does not pass through unchanged — the export adds
the derived key to it. -/
theorem exportMonth_unchanged_counterexample :
    exportMonth 0 cxExpState "2024-01" ≠ some [cxArchRecord]
    ∧ exportMonth 0 cxExpState "2024-01" =
        some [{ cxArchRecord with entityKey := some "rec:1" }] := by
  constructor
  · decide
  · decide

/-- C7 (amended): for every archive month (with a non-empty normalized month
key), the export maps each key-resolved archived record to its latest renewal
when one exists and passes the key-resolved archived record through when none
exists; the output list has the same length and order as the archived
bucket. -/
theorem exportMonth_substitution (nowMs : Nat) (st : ServerState) (month : String)
    (hm : normalizeEntityKey month ≠ "") :
    ∃ out, exportMonth nowMs st month = some out
      ∧ out.length = (st.archive (normalizeEntityKey month)).length
      ∧ ∀ i : Nat, out[i]? = ((st.archive (normalizeEntityKey month))[i]?).map
          (fun a => (getLatestRenewedByEntityKey nowMs st.history
              (normalize (ensureEntityKey nowMs a).entityKey)).getD
            (ensureEntityKey nowMs a)) := by
  refine ⟨((st.archive (normalizeEntityKey month)).map (ensureEntityKey nowMs)).map
      (fun r =>
        let ek := normalize r.entityKey
        let latest := if ek ≠ "" then getLatestRenewedByEntityKey nowMs st.history ek else none
        latest.getD r), ?_, ?_, ?_⟩
  · simp [exportMonth, hm]
  · simp
  · intro i
    simp only [List.getElem?_map]
    cases ha : (st.archive (normalizeEntityKey month))[i]? with
    | none => rfl
    | some a =>
      simp only [Option.map_some']
      by_cases hek : normalize (ensureEntityKey nowMs a).entityKey = ""
      · simp only [hek]
        rw [getLatest_empty_key]
        simp
      · simp [hek]

/-- C7 (witness): exporting the month whose one archived record has a later
renewal yields a defined, one-element output. -/
theorem exportMonth_substitution_witness :
    (exportMonth 7 wExpState "2024-01").map List.length = some 1
    ∧ exportMonth 7 wExpState "2024-01" ≠ none := by
  obtain ⟨out, h1, h2, h3⟩ := exportMonth_substitution 7 wExpState "2024-01" (by decide)
  constructor
  · rw [h1, Option.map_some', h2]
    decide
  · rw [h1]
    exact Option.some_ne_none out

/-- C9 (spec-modelled): `removeByRecordId(id)` keeps the log order (the
result is a sublist), retains no `RENEWED` event whose `data.id` equals the
given id, and every `PREVIOUS` event and every `RENEWED` event with a
different `data.id` is retained with unchanged multiplicity. -/
theorem removeByRecordId_scoping (rid : JsIdVal) (hist : List HistoryEvent) :
    (removeByRecordId rid hist).Sublist hist
    ∧ (∀ h ∈ removeByRecordId rid hist, ¬(h.action = "RENEWED" ∧ h.data.id = some rid))
    ∧ (∀ h : HistoryEvent, ¬(h.action = "RENEWED" ∧ h.data.id = some rid) →
        (removeByRecordId rid hist).count h = hist.count h) := by
  refine ⟨List.filter_sublist _, ?_, ?_⟩
  · intro h hmem hcond
    have hp := (List.mem_filter.mp hmem).2
    rcases hcond with ⟨ha, hid⟩
    simp [removeByRecordId, ha, hid] at hp
  · intro h hcond
    apply List.count_filter
    by_cases ha : h.action = "RENEWED"
    · by_cases hid : h.data.id = some rid
      · exact absurd ⟨ha, hid⟩ hcond
      · simp [ha, hid]
    · simp [ha]

/-- C9 (witness): deleting renewed id 5 keeps the unrelated renewed event
with id 6 at its multiplicity. -/
theorem removeByRecordId_scoping_witness :
    (removeByRecordId (.num 5) wRemHist).count
        { entityKey := "k", source := "s", changedAt := "t2", action := "RENEWED",
          data := { id := some (.num 6) } }
      = wRemHist.count
        { entityKey := "k", source := "s", changedAt := "t2", action := "RENEWED",
          data := { id := some (.num 6) } } :=
  (removeByRecordId_scoping (.num 5) wRemHist).2.2 _ (by decide)

end BFP
